import Mathlib

/-!
Verification development for the quizzy `IDBController` core
(`src/quizzy-common/src/utils/string.ts`): a document store with
optimistic-lock updates, soft/hard delete, a keyword/tag indexer with a
BM25 statistics cache, and a score-cached, paginated search engine.

Modelling conventions:
- JS objects with optional fields become structures with `Option` fields.
- A JS `Record<string, V>` becomes an insertion-ordered association list
  (`RecordMap V`); assignment replaces in place or appends, matching JS
  key-order semantics.
- An IndexedDB object store becomes a `List Doc` (cursor order is list
  order); `get`/`put`/`delete` act by key `id`.
- JS `number` timestamps and counts become `Nat`; BM25 parameters are
  call-site rational literals, so they are embedded as `ℚ` in the cache
  key and coerced to `ℝ` for scoring; scores use `ℝ` with `Real.log`
  standing for `Math.log`.
- `generateKeywords` (module `./keywords`), `applyPatch`
  (`#/utils/patch`) and `buildTrieTree`/`loadTrieTree` (`./search`) are
  imported by the controller but their sources are not in the repository
  snapshot; they are abstracted as function parameters (the claims under
  verification do not depend on their internals), and the serialized trie
  in the BM25 cache is represented by the vocabulary it was built from.
- The process-local score cache is `QuickLRU` with capacity 100; the LRU
  library is external, and capacity eviction is unobservable in the
  single- and two-call scenarios verified here, so it is modelled as an
  unbounded association map with `has`/`get`/`set`/`clear`.
-/

/-! ### JS records as insertion-ordered association lists -/

abbrev RecordMap (V : Type) := List (String × V)

def getR {V : Type} (m : RecordMap V) (k : String) : Option V :=
  (m.find? (fun p => p.1 == k)).map (fun p => p.2)

def setR {V : Type} (m : RecordMap V) (k : String) (v : V) : RecordMap V :=
  if m.any (fun p => p.1 == k) then
    m.map (fun p => if p.1 == k then (k, v) else p)
  else
    m ++ [(k, v)]

def keysR {V : Type} (m : RecordMap V) : List String := m.map (fun p => p.1)

/-! ### Documents (`DatabaseIndexed & KeywordIndexed`, src/unnamed/part_006)

`payload` stands for the remaining entity fields (name, content, ...),
which the indexing layer carries through untouched. -/

structure Doc where
  id : String
  deleted : Option Bool := none
  lastUpdate : Option Nat := none
  tags : Option (List String) := none
  categories : Option (List String) := none
  keywords : Option (List String) := none
  keywordsFrequency : Option (RecordMap Nat) := none
  tagsFrequency : Option (RecordMap Nat) := none
  keywordsUpdatedTime : Option Nat := none
  payload : RecordMap String := []
deriving Repr, DecidableEq

/-- A `Patch<T>` value. `Patch<T>` is a partial record; every optional
field of `Doc` is already an `Option`, and the two code paths of
`_update` overwrite `id` and `lastUpdate` before the patch value is ever
stored, so a patch is embedded as a `Doc`. -/
abbrev Patch := Doc

/-! ### Object store primitives (idb wrappers) -/

abbrev Store := List Doc

/-- `db.get(store, id)`: point lookup by primary key. -/
def getDoc (s : Store) (i : String) : Option Doc :=
  s.find? (fun d => d.id == i)

/-- `db.put(store, d)`: replace the record with key `d.id` in place, or
append it if absent. -/
def putDoc (s : Store) (d : Doc) : Store :=
  if s.any (fun x => x.id == d.id) then
    s.map (fun x => if x.id == d.id then d else x)
  else
    s ++ [d]

/-- `db.delete(store, id)`: physically remove the record. -/
def delDoc (s : Store) (i : String) : Store :=
  s.filter (fun d => !(d.id == i))

/-! ### Score cache (QuickLRU, `this.cache`) -/

abbrev ScoreList := List (String × ℝ)

/-- The canonical cache key
`JSON.stringify([store, keywords, useTag, k1, b, threshold])`
of `_search` — note: no page or count component. -/
abbrev CacheKey := String × List String × Bool × ℚ × ℚ × ℚ

abbrev ScoreCache := List (CacheKey × ScoreList)

def cacheGet (c : ScoreCache) (k : CacheKey) : Option ScoreList :=
  (c.find? (fun e => decide (e.1 = k))).map (fun e => e.2)

def cacheSet (c : ScoreCache) (k : CacheKey) (v : ScoreList) : ScoreCache :=
  if c.any (fun e => decide (e.1 = k)) then
    c.map (fun e => if e.1 = k then (k, v) else e)
  else
    c ++ [(k, v)]

/-! ### `sanitizeIndices` (src/unnamed/part_006)

The TS function also takes `inPlace`, which only controls copying and is
meaningless in a pure model; `retainTags` defaults to `true` in TS and
every call site in the controller leaves it at the default. -/

def sanitizeIndices (d : Doc) (retainTags : Bool) : Doc :=
  let r := { d with deleted := none, keywords := none,
                    keywordsFrequency := none, tagsFrequency := none,
                    keywordsUpdatedTime := none }
  if retainTags then r else { r with tags := none }

/-! ### `IDBController._delete` -/

inductive UpdateError where
  | dataModified
deriving Repr, DecidableEq

/-- `_delete(store, id, hard)`. Returns the boolean result together with
the store and score cache after the call. -/
def deleteOp (s : Store) (cache : ScoreCache) (i : String) (hard : Bool)
    (now : Nat) : Bool × Store × ScoreCache :=
  match getDoc s i with
  | none => (false, s, cache)
  | some original =>
    if !hard then
      (true, putDoc s { original with deleted := some true, lastUpdate := some now }, [])
    else
      (true, delDoc s i, [])

/-! ### `IDBController._update`

`applyPatch` is abstracted as a parameter `ap : Doc → Patch → Doc`
(its module is not in the snapshot); every theorem below holds for an
arbitrary patch-application function. -/

/-- The in-memory record `_update` prepares before taking the write
transaction: patch applied, `id` and `lastUpdate` overwritten, derived
keyword fields cleared when `invalidateKeywordsCache` is set. -/
def updateModified (ap : Doc → Patch → Doc) (original patch : Doc)
    (i : String) (now : Nat) (invalidate : Bool) : Doc :=
  let m := ap original patch
  let m := { m with id := i, lastUpdate := some now }
  if invalidate then
    { m with keywords := none, keywordsFrequency := none,
             tagsFrequency := none, keywordsUpdatedTime := none }
  else m

/-- The optimistic-lock commit phase of `_update`: inside the write
transaction, re-read the record (`another`), compare
`another?.lastUpdate` with the previously observed value, and either
abort (throwing leaves the transaction and hence the store unchanged) or
put the modified record and clear the score cache. `s` is the store
state at transaction time, which a concurrent writer may have changed
since the initial read. -/
def updateCommitRun (s : Store) (cache : ScoreCache) (i : String)
    (origLU : Option Nat) (modified : Doc) :
    Option UpdateError × Store × ScoreCache :=
  if (getDoc s i).bind Doc.lastUpdate ≠ origLU then
    (some UpdateError.dataModified, s, cache)
  else
    (none, putDoc s modified, [])

/-- `_update(store, id, patch, invalidateKeywordsCache)` run without
interference (read and commit see the same store). On a missing id it
degrades to a create — and returns before the `this.cache.clear()`
call, so the score cache is passed through unchanged on that path. -/
def updateOp (ap : Doc → Patch → Doc) (s : Store) (cache : ScoreCache)
    (i : String) (patch : Patch) (invalidate : Bool) (now : Nat) :
    Except UpdateError (String × Store × ScoreCache) :=
  match getDoc s i with
  | none =>
    .ok (i, s ++ [{ patch with id := i, lastUpdate := some now }], cache)
  | some original =>
    let modified := updateModified ap original patch i now invalidate
    match updateCommitRun s cache i original.lastUpdate modified with
    | (some e, _, _) => .error e
    | (none, s', c') => .ok (i, s', c')

/-! ### BM25 statistics cache (`Bm25Cache`)

The serialized tries (`trie`/`trieSize`, `trieTags`/`trieSizeTags`) are
represented by the vocabulary lists they were built from
(`Object.keys(wordAppeared)` resp. `Object.keys(tagAppeared)`); prefix
search over a loaded trie is an abstract parameter
`tfun : List String → String → List String` throughout. -/

structure Bm25Cache where
  wordAppeared : RecordMap Nat
  tagAppeared : RecordMap Nat
  averageDocLength : ℝ
  averageDocLengthTag : ℝ
  totalDocs : Nat
  idf : RecordMap ℝ
  idfTag : RecordMap ℝ
  trie : List String
  trieTags : List String

/-- The default object substituted in `_buildScore` when no
`bm25_<store>` entry exists (`?? { idf: {}, idfTag: {}, ... }`). -/
def emptyBm25 : Bm25Cache :=
  { wordAppeared := [], tagAppeared := []
    averageDocLength := 0, averageDocLengthTag := 0
    totalDocs := 0, idf := [], idfTag := []
    trie := [], trieTags := [] }

/-! ### `IDBController._buildIndices` -/

/-- The re-index guard of `_buildIndices`:
`force || (!object.deleted && (object.keywords == null ||
object.keywordsUpdatedTime == null || (object.lastUpdate != null &&
object.keywordsUpdatedTime < object.lastUpdate)))`. -/
def needsReindex (force : Bool) (d : Doc) : Bool :=
  force || (!(d.deleted.getD false) &&
    (d.keywords.isNone || d.keywordsUpdatedTime.isNone ||
      (d.lastUpdate.isSome &&
        match d.keywordsUpdatedTime, d.lastUpdate with
        | some kut, some lu => decide (kut < lu)
        | _, _ => false)))

/-- `tagFreq`: each `tags` entry at weight 1, then each `categories`
entry at weight 4 (a term in both ends at 4). -/
def buildTagFreq (tags categories : List String) : RecordMap Nat :=
  categories.foldl (fun m t => setR m t 4)
    (tags.foldl (fun m t => setR m t 1) [])

/-- The in-place re-index of one document inside the scan.
`genKw` abstracts `generateKeywords` applied to the document field
values minus the excluded keys. -/
def reindexDoc (genKw : Doc → List String × RecordMap Nat) (now : Nat)
    (d : Doc) : Doc :=
  let ws := genKw d
  { d with keywordsUpdatedTime := some now,
           keywordsFrequency := some ws.2,
           keywords := some ws.1,
           tagsFrequency := some (buildTagFreq (d.tags.getD []) (d.categories.getD [])) }

/-- `wordAppeared[key] = (wordAppeared[key] || 0) + 1` over a key list. -/
def bumpKeys (m : RecordMap Nat) (ks : List String) : RecordMap Nat :=
  ks.foldl (fun m k => setR m k ((getR m k).getD 0 + 1)) m

/-- Accumulator of the `_buildIndices` cursor scan. -/
structure ScanAcc where
  docs : List Doc
  updated : List String
  wordAppeared : RecordMap Nat
  tagAppeared : RecordMap Nat
  totalLength : Nat
  totalLengthTag : Nat
  totalDocs : Nat

def ScanAcc.init : ScanAcc := ⟨[], [], [], [], 0, 0, 0⟩

/-- The accumulation-only part of one scan step: document-frequency
counts, length totals, document count — performed for every document,
re-indexed in this pass or not. -/
def accStep (acc : ScanAcc) (d : Doc) : ScanAcc :=
  { docs := acc.docs ++ [d]
    updated := acc.updated
    wordAppeared := bumpKeys acc.wordAppeared (keysR (d.keywordsFrequency.getD []))
    tagAppeared := bumpKeys acc.tagAppeared (keysR (d.tagsFrequency.getD []))
    totalLength := acc.totalLength + (d.keywords.getD []).length
    totalLengthTag := acc.totalLengthTag + (d.tags.getD []).length + (d.categories.getD []).length
    totalDocs := acc.totalDocs + 1 }

/-- One full step of the `_buildIndices` cursor loop: re-index the
document when the guard holds (recording its id), then accumulate the
global statistics from the possibly-updated object. -/
def scanStep (genKw : Doc → List String × RecordMap Nat) (force : Bool)
    (now : Nat) (acc : ScanAcc) (d : Doc) : ScanAcc :=
  if needsReindex force d then
    let d' := reindexDoc genKw now d
    { accStep acc d' with updated := acc.updated ++ [d'.id] }
  else
    accStep acc d

def scanDocs (genKw : Doc → List String × RecordMap Nat) (force : Bool)
    (now : Nat) (docs : Store) : ScanAcc :=
  docs.foldl (scanStep genKw force now) ScanAcc.init

/-- Per-term inverse document frequency:
`Math.max(1e-8, Math.log((totalDocs - n + 0.5) / (n + 0.5)))`. -/
noncomputable def idfOf (N n : Nat) : ℝ :=
  max 1e-8 (Real.log (((N : ℝ) - (n : ℝ) + 0.5) / ((n : ℝ) + 0.5)))

/-- `Object.fromEntries(Object.entries(appeared).map(([k, n]) => [k, idf]))`. -/
noncomputable def buildIdf (appeared : RecordMap Nat) (N : Nat) : RecordMap ℝ :=
  appeared.map (fun p => (p.1, idfOf N p.2))

/-- The BM25 cache object assembled and dumped after the scan
(`averageDocLength = totalLength / (totalDocs || 1)`). -/
noncomputable def mkBm25 (a : ScanAcc) : Bm25Cache :=
  { wordAppeared := a.wordAppeared
    tagAppeared := a.tagAppeared
    averageDocLength := (a.totalLength : ℝ) / (if a.totalDocs = 0 then 1 else (a.totalDocs : ℝ))
    averageDocLengthTag := (a.totalLengthTag : ℝ) / (if a.totalDocs = 0 then 1 else (a.totalDocs : ℝ))
    totalDocs := a.totalDocs
    idf := buildIdf a.wordAppeared a.totalDocs
    idfTag := buildIdf a.tagAppeared a.totalDocs
    trie := keysR a.wordAppeared
    trieTags := keysR a.tagAppeared }

/-- `_buildIndices(store, force, excludedKeys)`: returns the updated id
list, the store after the in-scan `cursor.update` calls, and the fresh
BM25 cache persisted under `bm25_<store>`. -/
noncomputable def buildIndicesOp (genKw : Doc → List String × RecordMap Nat)
    (force : Bool) (now : Nat) (docs : Store) :
    List String × Store × Bm25Cache :=
  let a := scanDocs genKw force now docs
  (a.updated, a.docs, mkBm25 a)

/-! ### Controller state and `refreshSearchIndices` -/

/-- The controller state relevant to the searchable collections:
the `questions` and `papers` stores, their persisted BM25 caches
(`general` entries `bm25_questions` / `bm25_papers`), and the
process-local score cache. -/
structure DB where
  questions : Store
  papers : Store
  bm25Q : Option Bm25Cache
  bm25P : Option Bm25Cache
  cache : ScoreCache

/-- `refreshSearchIndices(force)`: rebuild both collections (each with
its own excluded-key set, folded into its `genKw`), clear the score
cache, return the total number of re-indexed documents. -/
noncomputable def refreshSearchIndicesOp
    (genKwQ genKwP : Doc → List String × RecordMap Nat)
    (force : Bool) (now : Nat) (db : DB) : Nat × DB :=
  let q := buildIndicesOp genKwQ force now db.questions
  let p := buildIndicesOp genKwP force now db.papers
  (q.1.length + p.1.length,
   { questions := q.2.1, papers := p.2.1
     bm25Q := some q.2.2, bm25P := some p.2.2
     cache := [] })

/-! ### `IDBController._buildScore` and `_search` -/

/-- Insertion into the JS `Set` backing `expandedQuery` (insertion
order, duplicates ignored). -/
def addUnique (l : List String) (x : String) : List String :=
  if x ∈ l then l else l ++ [x]

/-- `expandedQuery`: every query term plus every trie prefix-search
result for it, deduplicated. -/
def expandQuery (tfun : String → List String) (query : List String) :
    List String :=
  query.foldl (fun acc qi => (tfun qi).foldl addUnique (addUnique acc qi)) []

/-- The BM25 score `_buildScore` computes for one document:
`docLength = cacheList?.length || 1`, `f_qi = freq[qi] ?? 0`, and the sum
over the expanded query of
`(idf[qi] ?? 0) * (f_qi * (k1 + 1)) / (f_qi + k1 * (1 - b + b * docLength / l))`. -/
noncomputable def docScore (idfMap : RecordMap ℝ) (l k1 b : ℝ)
    (expanded : List String) (useTag : Bool) (d : Doc) : ℝ :=
  let docLengthN : Nat :=
    if useTag then (d.tags.getD []).length + (d.categories.getD []).length
    else (d.keywords.getD []).length
  let docLength : ℝ := if docLengthN = 0 then 1 else (docLengthN : ℝ)
  let freq := (if useTag then d.tagsFrequency else d.keywordsFrequency).getD []
  expanded.foldl (fun score qi =>
    let f : ℝ := (((getR freq qi).getD 0 : Nat) : ℝ)
    score + ((getR idfMap qi).getD 0) * (f * (k1 + 1)) / (f + k1 * (1 - b + b * docLength / l))) 0

/-- `scoresSorted.sort((a, b) => b[1] - a[1])`: descending by score. -/
noncomputable def sortScores (m : ScoreList) : ScoreList :=
  List.insertionSort (fun a b : String × ℝ => b.2 ≤ a.2) m

/-- `_buildScore(key, store, query, useTag, k1, b, threshold)` without
its trailing cache write (performed by the caller model `searchOp`):
load the BM25 cache (or the inline default), expand the query through
the trie, score every document in cursor order, keep scores above the
threshold keyed by document id, and sort descending. -/
noncomputable def buildScore (tfun : List String → String → List String)
    (bm25? : Option Bm25Cache) (docs : Store) (query : List String)
    (useTag : Bool) (k1 b threshold : ℚ) : ScoreList :=
  let bm := bm25?.getD emptyBm25
  let trieFun := tfun (if useTag then bm.trieTags else bm.trie)
  let l : ℝ := if useTag then bm.averageDocLengthTag else bm.averageDocLength
  let idfMap := if useTag then bm.idfTag else bm.idf
  let expanded := expandQuery trieFun query
  let scores : RecordMap ℝ := docs.foldl (fun m d =>
    let sc := docScore idfMap l (k1 : ℝ) (b : ℝ) expanded useTag d
    if (threshold : ℝ) < sc then setR m d.id sc else m) []
  sortScores scores

/-- The result-page fetch loop of `_search`:
`for (i = page*count; i < (page+1)*count; ++i)` fetch
`scores?.[i]?.[0] ?? ''` and push the sanitized document when found. -/
noncomputable def pageFetch (docs : Store) (scores : ScoreList)
    (count page : Nat) : List Doc :=
  (List.range count).filterMap (fun j =>
    (getDoc docs (((scores.get? (page * count + j)).map (fun e => e.1)).getD "")).map
      (fun d => sanitizeIndices d true))

structure SearchResult where
  query : String
  keywords : List String
  result : List Doc
  totalPages : Nat

/-- `_search(store, query, keywords, useTag, count, page, k1, b,
threshold)`: canonical cache key without page/count, cache hit or score
build-and-insert, clamping `count = max(count ?? 1, 1)` and
`page = max(page ?? 0, 0)`, page slice, and
`totalPages = ceil(scores.length / count)`. -/
noncomputable def searchOp (tfun : List String → String → List String)
    (storeName : String) (docs : Store) (bm25? : Option Bm25Cache)
    (cache : ScoreCache) (query : String) (keywords : List String)
    (useTag : Bool) (count? page? : Option Int) (k1 b threshold : ℚ) :
    SearchResult × ScoreCache :=
  let key : CacheKey := (storeName, keywords, useTag, k1, b, threshold)
  let hit := cacheGet cache key
  let scores := match hit with
    | some s => s
    | none => buildScore tfun bm25? docs keywords useTag k1 b threshold
  let cache' := match hit with
    | some _ => cache
    | none => cacheSet cache key scores
  let c : Nat := (max (count?.getD 1) 1).toNat
  let p : Nat := (max (page?.getD 0) 0).toNat
  ({ query := query, keywords := keywords
     result := pageFetch docs scores c p
     totalPages := (scores.length + c - 1) / c }, cache')

/-- JS `query.split(' ')` on the underlying character list: split at
every single space, keeping empty fragments (including a leading or
trailing one), exactly like the JS string split with a one-character
separator. -/
def splitOnSpace : List Char → List (List Char)
  | [] => [[]]
  | c :: rest =>
    let r := splitOnSpace rest
    if c = ' ' then [] :: r
    else (c :: r.headD []) :: r.tail

def jsSplitSpace (s : String) : List String :=
  (splitOnSpace s.data).map (fun cs => String.mk cs)

/-- `findQuestionByTags(query, count, page)`: split the query on spaces,
drop empty fragments, prepend the whole query unless it already heads
the list, and search the questions store in tag space with the default
BM25 parameters. -/
noncomputable def findQuestionByTagsOp (tfun : List String → String → List String)
    (db : DB) (query : String) (count? page? : Option Int) :
    SearchResult × ScoreCache :=
  let ks := (jsSplitSpace query).filter (fun x => x ≠ "")
  let ks := if ks.head? = some query then ks else query :: ks
  searchOp tfun "questions" db.questions db.bm25Q db.cache query ks true
    count? page? 1.5 0.75 1e-10

/-- The sanitizing point getters (`getQuizPaper`, `getQuestions`):
fetch by id and strip the derived index fields. -/
def getOneOp (s : Store) (i : String) : Option Doc :=
  (getDoc s i).map (fun d => sanitizeIndices d true)

/-! ### Helper lemmas about the store and record primitives -/

theorem updateModified_id (ap : Doc → Patch → Doc) (original patch : Doc)
    (i : String) (now : Nat) (invalidate : Bool) :
    (updateModified ap original patch i now invalidate).id = i := by
  unfold updateModified
  split <;> rfl

theorem updateModified_lastUpdate (ap : Doc → Patch → Doc)
    (original patch : Doc) (i : String) (now : Nat) (invalidate : Bool) :
    (updateModified ap original patch i now invalidate).lastUpdate = some now := by
  unfold updateModified
  split <;> rfl

theorem getDoc_putDoc_self (s : Store) (d : Doc) :
    getDoc (putDoc s d) d.id = some d := by
  unfold putDoc
  split
  case isTrue h =>
    induction s with
    | nil => simp at h
    | cons x xs ih =>
      simp only [List.any_cons, Bool.or_eq_true] at h
      by_cases hx : x.id = d.id
      · simp [getDoc, List.find?, hx]
      · have hx' : (x.id == d.id) = false := by simp [hx]
        have h' : xs.any (fun y => y.id == d.id) = true := by
          rcases h with h | h
          · exact absurd h (by simp [hx])
          · exact h
        simpa [getDoc, List.find?, hx'] using ih h'
  case isFalse h =>
    have hnone : s.find? (fun x => x.id == d.id) = none := by
      rw [List.find?_eq_none]
      intro x hx hbx
      exact h (List.any_eq_true.mpr ⟨x, hx, hbx⟩)
    simp [getDoc, List.find?_append, hnone, List.find?]

theorem getDoc_putDoc (s : Store) (d : Doc) (i : String) (h : d.id = i) :
    getDoc (putDoc s d) i = some d := by
  subst h
  exact getDoc_putDoc_self s d

theorem getDoc_append_of_none (s : Store) (d : Doc) (i : String)
    (hs : getDoc s i = none) (hd : d.id = i) :
    getDoc (s ++ [d]) i = some d := by
  unfold getDoc at hs ⊢
  simp [List.find?_append, hs, List.find?, hd]

theorem getR_setR_self {V : Type} (m : RecordMap V) (k : String) (v : V) :
    getR (setR m k v) k = some v := by
  unfold setR
  split
  case isTrue h =>
    induction m with
    | nil => simp at h
    | cons x xs ih =>
      simp only [List.any_cons, Bool.or_eq_true] at h
      by_cases hx : x.1 = k
      · simp [getR, List.find?, hx]
      · have hx' : (x.1 == k) = false := by simp [hx]
        have h' : xs.any (fun y => y.1 == k) = true := by
          rcases h with h | h
          · exact absurd h (by simp [hx])
          · exact h
        simpa [getR, List.find?, hx'] using ih h'
  case isFalse h =>
    have hnone : m.find? (fun x => x.1 == k) = none := by
      rw [List.find?_eq_none]
      intro x hx hbx
      exact h (List.any_eq_true.mpr ⟨x, hx, hbx⟩)
    simp [getR, List.find?_append, hnone, List.find?]

theorem getR_map_replace {V : Type} (m : RecordMap V) (k k' : String)
    (v : V) (h : k' ≠ k) :
    getR (m.map (fun p => if p.1 == k then (k, v) else p)) k' = getR m k' := by
  have hk : (k == k') = false := by simp [Ne.symm h]
  induction m with
  | nil => simp [getR]
  | cons x xs ih =>
    by_cases hx : x.1 = k
    · have hx'' : (x.1 == k') = false := by simp [hx, Ne.symm h]
      simpa [getR, List.find?, hx, hk, hx''] using ih
    · have hx' : (x.1 == k) = false := by simp [hx]
      by_cases hy : x.1 = k'
      · have hy' : (x.1 == k') = true := by simp [hy]
        simp [getR, List.find?, hx', hy']
      · have hy' : (x.1 == k') = false := by simp [hy]
        simpa [getR, List.find?, hx', hy'] using ih

theorem getR_setR_ne {V : Type} (m : RecordMap V) (k k' : String) (v : V)
    (h : k' ≠ k) : getR (setR m k v) k' = getR m k' := by
  unfold setR
  split
  case isTrue _ => exact getR_map_replace m k k' v h
  case isFalse _ =>
    have hk : ((k, v).1 == k') = false := by simp [Ne.symm h]
    simp only [getR, List.find?_append, List.find?, hk]
    cases m.find? (fun x => x.1 == k') <;> simp [getR]

theorem getR_map {V W : Type} (m : RecordMap V) (f : V → W) (k : String) :
    getR (m.map (fun p => (p.1, f p.2))) k = (getR m k).map f := by
  induction m with
  | nil => simp [getR]
  | cons x xs ih =>
    by_cases hx : x.1 = k
    · simp [getR, List.find?, hx]
    · have hx' : (x.1 == k) = false := by simp [hx]
      simpa [getR, List.find?, hx'] using ih

/-! ## Claim theorems -/

/-- C10: Sanitization of returned documents is frame-preserving: exactly
`deleted`, `keywords`, `keywordsFrequency`, `tagsFrequency` and
`keywordsUpdatedTime` are removed, while `id`, `tags`, `categories`,
`lastUpdate` and every other stored field keep their stored values; every
document returned by the search page fetch is the sanitization of a
stored document, and the point getters return the sanitized stored
document. -/
theorem sanitize_frame_preserving :
    (∀ d : Doc,
      (sanitizeIndices d true).deleted = none ∧
      (sanitizeIndices d true).keywords = none ∧
      (sanitizeIndices d true).keywordsFrequency = none ∧
      (sanitizeIndices d true).tagsFrequency = none ∧
      (sanitizeIndices d true).keywordsUpdatedTime = none ∧
      (sanitizeIndices d true).id = d.id ∧
      (sanitizeIndices d true).tags = d.tags ∧
      (sanitizeIndices d true).categories = d.categories ∧
      (sanitizeIndices d true).lastUpdate = d.lastUpdate ∧
      (sanitizeIndices d true).payload = d.payload) ∧
    (∀ (docs : Store) (scores : ScoreList) (c p : Nat) (x : Doc),
      x ∈ pageFetch docs scores c p →
        ∃ d0 ∈ docs, x = sanitizeIndices d0 true) ∧
    (∀ (s : Store) (i : String),
      getOneOp s i = (getDoc s i).map (fun d => sanitizeIndices d true)) := by
  refine ⟨fun d => ?_, fun docs scores c p x hx => ?_, fun s i => rfl⟩
  · simp [sanitizeIndices]
  · unfold pageFetch at hx
    rcases List.mem_filterMap.mp hx with ⟨j, _, hj⟩
    rcases Option.map_eq_some'.mp hj with ⟨d0, hd0, hxd⟩
    exact ⟨d0, List.mem_of_find?_eq_some hd0, hxd.symm⟩

/-- C10 witness: a concrete sanitized document really flows out of the
page fetch of a concrete store. -/
theorem sanitize_frame_preserving_witness :
    sanitizeIndices { id := "a", deleted := some true } true ∈
      pageFetch [{ id := "a", deleted := some true }] [("a", (1 : ℝ))] 1 0 ∧
    ∃ d0 ∈ ([{ id := "a", deleted := some true }] : Store),
      sanitizeIndices { id := "a", deleted := some true } true = sanitizeIndices d0 true := by
  have hmem : sanitizeIndices { id := "a", deleted := some true } true ∈
      pageFetch [{ id := "a", deleted := some true }] [("a", (1 : ℝ))] 1 0 := by
    unfold pageFetch
    refine List.mem_filterMap.mpr ⟨0, by simp, ?_⟩
    rfl
  exact ⟨hmem, sanitize_frame_preserving.2.1
    [{ id := "a", deleted := some true }] [("a", (1 : ℝ))] 1 0 _ hmem⟩

/-- C7: operations on a nonexistent id never raise an error: `_update`
degrades to a full create storing the patch with `id` and
`lastUpdate = now` overwritten and returns the id; `_delete` returns
`false` with store and score cache untouched; the getter returns an
absent value. -/
theorem missing_id_degrades_gracefully (ap : Doc → Patch → Doc)
    (s : Store) (cache : ScoreCache) (i : String) (patch : Patch)
    (inv : Bool) (now : Nat) (h : getDoc s i = none) :
    updateOp ap s cache i patch inv now =
      .ok (i, s ++ [{ patch with id := i, lastUpdate := some now }], cache) ∧
    (∀ hard, deleteOp s cache i hard now = (false, s, cache)) ∧
    getOneOp s i = none := by
  refine ⟨?_, fun hard => ?_, ?_⟩
  · unfold updateOp
    rw [h]
  · unfold deleteOp
    rw [h]
  · unfold getOneOp
    rw [h]
    rfl

/-- C7 witness at a concrete empty store. -/
theorem missing_id_degrades_gracefully_witness :
    getDoc ([] : Store) "x" = none ∧
    (updateOp (fun d _ => d) [] [] "x" { id := "y" } false 7 =
      .ok ("x", [{ id := "x", lastUpdate := some 7 }], []) ∧
    (∀ hard, deleteOp [] [] "x" hard 7 = (false, [], [])) ∧
    getOneOp [] "x" = none) := by
  refine ⟨rfl, ?_⟩
  have h := missing_id_degrades_gracefully (fun d _ => d) [] [] "x"
    { id := "y" } false 7 rfl
  exact h

/-- C9: for every `_update` call that commits, the stored record keeps
the id argument, even when the patch carries a different id: the create
path overwrites `patch.id` before insertion and the existing path
overwrites `modified.id` before the optimistic-lock commit. -/
theorem updateOp_none (ap : Doc → Patch → Doc) (s : Store)
    (cache : ScoreCache) (i : String) (patch : Patch) (inv : Bool)
    (now : Nat) (hg : getDoc s i = none) :
    updateOp ap s cache i patch inv now =
      .ok (i, s ++ [{ patch with id := i, lastUpdate := some now }], cache) := by
  unfold updateOp
  rw [hg]

theorem updateOp_some (ap : Doc → Patch → Doc) (s : Store)
    (cache : ScoreCache) (i : String) (patch : Patch) (inv : Bool)
    (now : Nat) (original : Doc) (hg : getDoc s i = some original) :
    updateOp ap s cache i patch inv now =
      .ok (i, putDoc s (updateModified ap original patch i now inv), []) := by
  unfold updateOp updateCommitRun
  rw [hg]
  simp

theorem update_forces_id (ap : Doc → Patch → Doc) (s : Store)
    (cache : ScoreCache) (i : String) (patch : Patch) (inv : Bool)
    (now : Nat) (rid : String) (s' : Store) (c' : ScoreCache)
    (h : updateOp ap s cache i patch inv now = .ok (rid, s', c')) :
    rid = i ∧ ∃ d, getDoc s' i = some d ∧ d.id = i := by
  cases hg : getDoc s i with
  | none =>
    rw [updateOp_none ap s cache i patch inv now hg] at h
    simp only [Except.ok.injEq, Prod.mk.injEq] at h
    obtain ⟨h1, h2, _⟩ := h
    refine ⟨h1.symm, { patch with id := i, lastUpdate := some now }, ?_, rfl⟩
    rw [← h2]
    exact getDoc_append_of_none s _ i hg rfl
  | some original =>
    rw [updateOp_some ap s cache i patch inv now original hg] at h
    simp only [Except.ok.injEq, Prod.mk.injEq] at h
    obtain ⟨h1, h2, _⟩ := h
    refine ⟨h1.symm, updateModified ap original patch i now inv, ?_, updateModified_id ..⟩
    rw [← h2]
    exact getDoc_putDoc s _ i (updateModified_id ..)

/-- C9 witness: a patch carrying id "other" is committed under the
argument id "a". -/
theorem update_forces_id_witness :
    updateOp (fun _ p => p) [{ id := "a", lastUpdate := some 1 }] []
        "a" { id := "other", tags := some ["t"] } false 2 =
      .ok ("a", [{ id := "a", lastUpdate := some 2, tags := some ["t"] }], []) ∧
    ("a" = "a" ∧ ∃ d, getDoc [{ id := "a", lastUpdate := some 2, tags := some ["t"] }] "a" = some d ∧ d.id = "a") := by
  constructor
  · rfl
  · exact update_forces_id (fun _ p => p) [{ id := "a", lastUpdate := some 1 }] []
      "a" { id := "other", tags := some ["t"] } false 2 "a"
      [{ id := "a", lastUpdate := some 2, tags := some ["t"] }] [] (by rfl)

/-- C1: `_update` re-reads the record inside the write transaction and
compares its `lastUpdate` with the value observed at the initial read:
on a mismatch it fails with the distinguishable `dataModified` error and
writes nothing; on a match it commits the fully patched record with
`lastUpdate` advanced to `now`. Of two concurrent updates that both read
`lastUpdate = t0`, the first to commit succeeds and the second fails
with `dataModified`, leaving the first committed record in place
(assuming the committed timestamp differs from `t0`, which is what
advancing `lastUpdate` means). -/
theorem update_optimistic_lock (ap : Doc → Patch → Doc) (s0 s1 : Store)
    (cache : ScoreCache) (i : String) (patchA patchB : Patch)
    (invA invB : Bool) (nowA nowB t0 : Nat) (original : Doc)
    (hread : getDoc s0 i = some original)
    (ht0 : original.lastUpdate = some t0)
    (hadv : t0 ≠ nowA) :
    ((getDoc s1 i).bind Doc.lastUpdate ≠ some t0 →
      updateCommitRun s1 cache i original.lastUpdate
          (updateModified ap original patchA i nowA invA) =
        (some UpdateError.dataModified, s1, cache)) ∧
    ((getDoc s1 i).bind Doc.lastUpdate = some t0 →
      updateCommitRun s1 cache i original.lastUpdate
          (updateModified ap original patchA i nowA invA) =
        (none, putDoc s1 (updateModified ap original patchA i nowA invA), []) ∧
      (updateModified ap original patchA i nowA invA).lastUpdate = some nowA ∧
      (invA = false →
        updateModified ap original patchA i nowA invA =
          { ap original patchA with id := i, lastUpdate := some nowA })) ∧
    (updateCommitRun s0 cache i original.lastUpdate
        (updateModified ap original patchA i nowA invA) =
      (none, putDoc s0 (updateModified ap original patchA i nowA invA), []) ∧
     updateCommitRun (putDoc s0 (updateModified ap original patchA i nowA invA))
        [] i original.lastUpdate
        (updateModified ap original patchB i nowB invB) =
      (some UpdateError.dataModified,
       putDoc s0 (updateModified ap original patchA i nowA invA), [])) := by
  refine ⟨fun hne => ?_, fun heq => ?_, ?_, ?_⟩
  · unfold updateCommitRun
    rw [ht0, if_pos hne]
  · unfold updateCommitRun
    rw [ht0, if_neg (by simp [heq])]
    refine ⟨rfl, updateModified_lastUpdate .., fun hinv => ?_⟩
    unfold updateModified
    rw [hinv]
    simp
  · unfold updateCommitRun
    rw [if_neg (by simp [hread])]
  · have hget : getDoc (putDoc s0 (updateModified ap original patchA i nowA invA)) i =
        some (updateModified ap original patchA i nowA invA) :=
      getDoc_putDoc s0 _ i (updateModified_id ..)
    have hcond : (getDoc (putDoc s0 (updateModified ap original patchA i nowA invA)) i).bind
        Doc.lastUpdate ≠ original.lastUpdate := by
      rw [hget, ht0]
      simp only [Option.some_bind, updateModified_lastUpdate, ne_eq,
        Option.some.injEq]
      exact fun he => hadv he.symm
    unfold updateCommitRun
    rw [if_pos hcond]

/-- C1 witness: a concrete two-writer race on document "a". -/
theorem update_optimistic_lock_witness :
    getDoc [{ id := "a", lastUpdate := some 1 }] "a" =
      some { id := "a", lastUpdate := some 1 } ∧
    (Doc.lastUpdate { id := "a", lastUpdate := some 1 } = some 1) ∧
    (1 : Nat) ≠ 2 ∧
    (updateCommitRun [{ id := "a", lastUpdate := some 1 }] [] "a"
        (Doc.lastUpdate { id := "a", lastUpdate := some 1 })
        (updateModified (fun _ p => p) { id := "a", lastUpdate := some 1 }
          { id := "a", tags := some ["x"] } "a" 2 false) =
      (none, putDoc [{ id := "a", lastUpdate := some 1 }]
        (updateModified (fun _ p => p) { id := "a", lastUpdate := some 1 }
          { id := "a", tags := some ["x"] } "a" 2 false), []) ∧
     updateCommitRun (putDoc [{ id := "a", lastUpdate := some 1 }]
        (updateModified (fun _ p => p) { id := "a", lastUpdate := some 1 }
          { id := "a", tags := some ["x"] } "a" 2 false)) [] "a"
        (Doc.lastUpdate { id := "a", lastUpdate := some 1 })
        (updateModified (fun _ p => p) { id := "a", lastUpdate := some 1 }
          { id := "a", tags := some ["y"] } "a" 3 false) =
      (some UpdateError.dataModified,
       putDoc [{ id := "a", lastUpdate := some 1 }]
        (updateModified (fun _ p => p) { id := "a", lastUpdate := some 1 }
          { id := "a", tags := some ["x"] } "a" 2 false), [])) := by
  refine ⟨rfl, rfl, by decide, ?_⟩
  exact (update_optimistic_lock (fun _ p => p)
    [{ id := "a", lastUpdate := some 1 }] [] [] "a"
    { id := "a", tags := some ["x"] } { id := "a", tags := some ["y"] }
    false false 2 3 1 { id := "a", lastUpdate := some 1 }
    rfl rfl (by decide)).2.2

/-- C8 (code bug evidence): an `_update` on a nonexistent id (the
create path) succeeds but returns before `this.cache.clear()`, so a
nonempty score cache survives the mutation — a later search with the
cached key would serve the ranked list computed before the create. -/
theorem update_create_skips_cache_clear :
    updateOp (fun d _ => d) []
        [(("questions", ["q"], false, 1.5, 0.75, 1e-10), [("a", (1 : ℝ))])]
        "n" { id := "p" } false 5 =
      .ok ("n", [{ id := "n", lastUpdate := some 5 }],
        [(("questions", ["q"], false, 1.5, 0.75, 1e-10), [("a", (1 : ℝ))])]) ∧
    ([(("questions", ["q"], false, 1.5, 0.75, 1e-10), [("a", (1 : ℝ))])] :
      ScoreCache) ≠ [] ∧
    cacheGet [(("questions", ["q"], false, 1.5, 0.75, 1e-10), [("a", (1 : ℝ))])]
        ("questions", ["q"], false, 1.5, 0.75, 1e-10) = some [("a", (1 : ℝ))] := by
  refine ⟨rfl, by simp, ?_⟩
  unfold cacheGet
  rw [List.find?_cons_of_pos _ (by simp)]
  rfl

/-- C3: the index rebuild stores, for every term of the indexed
vocabulary (in both the keyword and the tag space),
`idf[t] = max(1e-8, ln((N - n + 0.5) / (n + 0.5)))` with `N` the total
document count and `n` the document frequency, and every such value is
at least `1e-8` and strictly positive — in particular for a term
appearing in every document (`n = N`, `N ≥ 2`). -/
theorem idf_formula_and_floor (genKw : Doc → List String × RecordMap Nat)
    (force : Bool) (now : Nat) (docs : Store) (t : String) (n : Nat) :
    (getR (buildIndicesOp genKw force now docs).2.2.wordAppeared t = some n →
      getR (buildIndicesOp genKw force now docs).2.2.idf t =
        some (idfOf (buildIndicesOp genKw force now docs).2.2.totalDocs n)) ∧
    (getR (buildIndicesOp genKw force now docs).2.2.tagAppeared t = some n →
      getR (buildIndicesOp genKw force now docs).2.2.idfTag t =
        some (idfOf (buildIndicesOp genKw force now docs).2.2.totalDocs n)) ∧
    (∀ N m : Nat, (1e-8 : ℝ) ≤ idfOf N m ∧ 0 < idfOf N m) := by
  refine ⟨fun h => ?_, fun h => ?_, fun N m => ?_⟩
  · have e1 : (buildIndicesOp genKw force now docs).2.2.idf =
        buildIdf (buildIndicesOp genKw force now docs).2.2.wordAppeared
          (buildIndicesOp genKw force now docs).2.2.totalDocs := rfl
    rw [e1, buildIdf, getR_map, h]
    rfl
  · have e1 : (buildIndicesOp genKw force now docs).2.2.idfTag =
        buildIdf (buildIndicesOp genKw force now docs).2.2.tagAppeared
          (buildIndicesOp genKw force now docs).2.2.totalDocs := rfl
    rw [e1, buildIdf, getR_map, h]
    rfl
  · constructor
    · exact le_max_left _ _
    · exact lt_of_lt_of_le (by norm_num) (le_max_left _ _)

/-- C3 witness: a one-document store whose single keyword gets the
floored IDF, plus the floor at `N = n = 2`. -/
theorem idf_formula_and_floor_witness :
    getR (buildIndicesOp (fun _ => (["w"], [("w", 1)])) false 3
        [{ id := "a" }]).2.2.wordAppeared "w" = some 1 ∧
    getR (buildIndicesOp (fun _ => (["w"], [("w", 1)])) false 3
        [{ id := "a" }]).2.2.idf "w" =
      some (idfOf (buildIndicesOp (fun _ => (["w"], [("w", 1)])) false 3
        [{ id := "a" }]).2.2.totalDocs 1) ∧
    ((1e-8 : ℝ) ≤ idfOf 2 2 ∧ 0 < idfOf 2 2) := by
  have h : getR (buildIndicesOp (fun _ => (["w"], [("w", 1)])) false 3
      [{ id := "a" }]).2.2.wordAppeared "w" = some 1 := by decide
  exact ⟨h,
    (idf_formula_and_floor (fun _ => (["w"], [("w", 1)])) false 3
      [{ id := "a" }] "w" 1).1 h,
    (idf_formula_and_floor (fun _ => (["w"], [("w", 1)])) false 3
      [{ id := "a" }] "w" 1).2.2 2 2⟩

/-! ### Helper lemmas for BM25 scoring -/

theorem getR_foldl_setConst {V : Type} (l : List String) (c : V)
    (m0 : RecordMap V) (t : String) :
    getR (l.foldl (fun m k => setR m k c) m0) t =
      if t ∈ l then some c else getR m0 t := by
  induction l generalizing m0 with
  | nil => simp
  | cons a tl ih =>
    rw [List.foldl_cons, ih]
    by_cases hm : t ∈ tl
    · simp [hm]
    · by_cases ha : t = a
      · subst ha
        simp [hm, getR_setR_self]
      · simp [hm, ha, getR_setR_ne m0 a t c ha]

theorem getR_buildTagFreq (ts cs : List String) (u : String) :
    getR (buildTagFreq ts cs) u =
      if u ∈ cs then some 4 else if u ∈ ts then some 1 else none := by
  unfold buildTagFreq
  rw [getR_foldl_setConst, getR_foldl_setConst]
  simp [getR]

theorem foldl_add_eq_sum {α : Type} (l : List α) (g : α → ℝ) (a : ℝ) :
    l.foldl (fun s x => s + g x) a = a + (l.map g).sum := by
  induction l generalizing a with
  | nil => simp
  | cons x xs ih =>
    rw [List.foldl_cons, ih, List.map_cons, List.sum_cons]
    ring

/-- Positivity of the BM25 length-normalization factor
`k1 * (1 - b + b * dl / l)`. -/
theorem bm25_K_pos (k1 b dl l : ℝ) (hk1 : 0 < k1) (hb0 : 0 ≤ b)
    (hb1 : b ≤ 1) (hdl : 0 < dl) (hl : 0 < l) :
    0 < k1 * (1 - b + b * dl / l) := by
  apply mul_pos hk1
  rcases eq_or_lt_of_le hb0 with hb | hb
  · rw [← hb]
    norm_num
  · have hbd : 0 < b * dl / l := by positivity
    linarith

/-- The per-term BM25 contribution is strictly increasing in the stored
frequency when the IDF weight is positive. -/
theorem bm25_term_lt (idf k1 K f1 f2 : ℝ) (hidf : 0 < idf) (hk1 : 0 < k1)
    (hK : 0 < K) (hf1 : 0 ≤ f1) (hf : f1 < f2) :
    idf * (f1 * (k1 + 1)) / (f1 + K) < idf * (f2 * (k1 + 1)) / (f2 + K) := by
  have h1 : 0 < f1 + K := by linarith
  have h2 : 0 < f2 + K := by linarith
  rw [div_lt_div_iff₀ h1 h2]
  nlinarith [mul_pos (mul_pos hidf (show (0:ℝ) < k1 + 1 by linarith))
    (mul_pos hK (show (0:ℝ) < f2 - f1 by linarith))]

/-- Tag-space `docScore` evaluated against an explicit stored
`tagsFrequency` and tag+category length. -/
theorem docScore_tag_eval (idfMap : RecordMap ℝ) (l k1 b : ℝ)
    (expanded : List String) (d : Doc) (tf : RecordMap Nat)
    (htf : d.tagsFrequency = some tf) (nn : ℕ)
    (hn : (d.tags.getD []).length + (d.categories.getD []).length = nn)
    (hnn : nn ≠ 0) :
    docScore idfMap l k1 b expanded true d =
      (expanded.map (fun qi =>
        ((getR idfMap qi).getD 0) *
          ((((getR tf qi).getD 0 : ℕ) : ℝ) * (k1 + 1)) /
          ((((getR tf qi).getD 0 : ℕ) : ℝ) + k1 * (1 - b + b * (nn : ℝ) / l)))).sum := by
  unfold docScore
  simp only [if_true, htf, Option.getD_some, hn, if_neg hnn]
  rw [foldl_add_eq_sum, zero_add]

/-- C4: indexing assigns each `tags` entry frequency weight 1 and each
`categories` entry weight 4; hence for two documents identical in every
scoring input except that one carries the matched term in `categories`
and the other in `tags`, the tag-space BM25 score of the categories
document is strictly greater (the per-term contribution is strictly
increasing in the stored frequency when its IDF is positive). -/
theorem category_weight_dominates (d : Doc) (ts cs : List String)
    (t : String) (idfMap : RecordMap ℝ) (l k1 b : ℝ)
    (expanded : List String)
    (hts : t ∉ ts) (hcs : t ∉ cs)
    (hidf : 0 < (getR idfMap t).getD 0)
    (hl : 0 < l) (hk1 : 0 < k1) (hb0 : 0 ≤ b) (hb1 : b ≤ 1)
    (ht : t ∈ expanded) :
    (∀ (ts' cs' : List String) (u : String),
      getR (buildTagFreq ts' cs') u =
        if u ∈ cs' then some 4 else if u ∈ ts' then some 1 else none) ∧
    docScore idfMap l k1 b expanded true
        { d with tags := some (ts ++ [t]), categories := some cs,
                 tagsFrequency := some (buildTagFreq (ts ++ [t]) cs) } <
      docScore idfMap l k1 b expanded true
        { d with tags := some ts, categories := some (cs ++ [t]),
                 tagsFrequency := some (buildTagFreq ts (cs ++ [t])) } := by
  refine ⟨getR_buildTagFreq, ?_⟩
  have hnn : ts.length + cs.length + 1 ≠ 0 := by omega
  rw [docScore_tag_eval idfMap l k1 b expanded _ (buildTagFreq (ts ++ [t]) cs)
      rfl (ts.length + cs.length + 1)
      (by simp only [Option.getD_some, List.length_append, List.length_singleton]; omega) hnn,
    docScore_tag_eval idfMap l k1 b expanded _ (buildTagFreq ts (cs ++ [t]))
      rfl (ts.length + cs.length + 1)
      (by simp only [Option.getD_some, List.length_append, List.length_singleton]; omega) hnn]
  set K : ℝ := k1 * (1 - b + b * ((ts.length + cs.length + 1 : ℕ) : ℝ) / l) with hKdef
  have hK : 0 < K := by
    rw [hKdef]
    apply bm25_K_pos k1 b _ l hk1 hb0 hb1 _ hl
    push_cast
    positivity
  apply List.sum_lt_sum
  · intro qi hqi
    dsimp only
    by_cases hq : qi = t
    · subst hq
      rw [getR_buildTagFreq, getR_buildTagFreq, if_neg hcs,
        if_pos (by simp : qi ∈ ts ++ [qi]), if_pos (by simp : qi ∈ cs ++ [qi])]
      simp only [Option.getD_some]
      push_cast
      exact le_of_lt (bm25_term_lt _ k1 K 1 4 hidf hk1 hK (by norm_num) (by norm_num))
    · have e1 : getR (buildTagFreq (ts ++ [t]) cs) qi =
          getR (buildTagFreq ts (cs ++ [t])) qi := by
        rw [getR_buildTagFreq, getR_buildTagFreq]
        simp [List.mem_append, hq]
      rw [e1]
  · refine ⟨t, ht, ?_⟩
    dsimp only
    rw [getR_buildTagFreq, getR_buildTagFreq, if_neg hcs,
      if_pos (by simp : t ∈ ts ++ [t]), if_pos (by simp : t ∈ cs ++ [t])]
    simp only [Option.getD_some]
    push_cast
    exact bm25_term_lt _ k1 K 1 4 hidf hk1 hK (by norm_num) (by norm_num)

/-- C4 witness: one-term documents, the categories placement wins. -/
theorem category_weight_dominates_witness :
    docScore [("c", (1 : ℝ))] 1 (3/2) (3/4) ["c"] true
        { id := "x", tags := some ([] ++ ["c"]), categories := some [],
          tagsFrequency := some (buildTagFreq ([] ++ ["c"]) []) } <
      docScore [("c", (1 : ℝ))] 1 (3/2) (3/4) ["c"] true
        { id := "x", tags := some [], categories := some ([] ++ ["c"]),
          tagsFrequency := some (buildTagFreq [] ([] ++ ["c"])) } :=
  (category_weight_dominates { id := "x" } [] [] "c" [("c", (1 : ℝ))] 1 (3/2) (3/4)
    ["c"] (by simp) (by simp)
    (by norm_num [getR, List.find?])
    (by norm_num) (by norm_num) (by norm_num) (by norm_num) (by simp)).2

/-! ### Helper lemmas for the score cache and `searchOp` -/

theorem cacheGet_cacheSet_self (c : ScoreCache) (k : CacheKey)
    (v : ScoreList) : cacheGet (cacheSet c k v) k = some v := by
  unfold cacheSet
  split
  case isTrue h =>
    induction c with
    | nil => simp at h
    | cons x xs ih =>
      simp only [List.any_cons, Bool.or_eq_true] at h
      by_cases hx : x.1 = k
      · unfold cacheGet
        rw [List.map_cons, if_pos hx, List.find?_cons_of_pos _ (by simp)]
        rfl
      · have h' : xs.any (fun e => decide (e.1 = k)) = true := by
          rcases h with h | h
          · exact absurd (of_decide_eq_true h) hx
          · exact h
        unfold cacheGet at ih ⊢
        rw [List.map_cons, if_neg hx, List.find?_cons_of_neg _ (by simp [hx])]
        exact ih h'
  case isFalse h =>
    have hnone : c.find? (fun e => decide (e.1 = k)) = none := by
      rw [List.find?_eq_none]
      intro x hx hbx
      exact h (List.any_eq_true.mpr ⟨x, hx, hbx⟩)
    unfold cacheGet
    rw [List.find?_append, hnone, List.find?_cons_of_pos _ (by simp)]
    rfl

theorem searchOp_hit (tfun : List String → String → List String)
    (storeName : String) (docs : Store) (bm25? : Option Bm25Cache)
    (cache : ScoreCache) (query : String) (keywords : List String)
    (useTag : Bool) (count? page? : Option Int) (k1 b threshold : ℚ)
    (L : ScoreList)
    (hhit : cacheGet cache (storeName, keywords, useTag, k1, b, threshold) = some L) :
    searchOp tfun storeName docs bm25? cache query keywords useTag
        count? page? k1 b threshold =
      ({ query := query, keywords := keywords
         result := pageFetch docs L (max (count?.getD 1) 1).toNat
           (max (page?.getD 0) 0).toNat
         totalPages := (L.length + (max (count?.getD 1) 1).toNat - 1) /
           (max (count?.getD 1) 1).toNat }, cache) := by
  unfold searchOp
  simp only [hhit]

theorem searchOp_miss (tfun : List String → String → List String)
    (storeName : String) (docs : Store) (bm25? : Option Bm25Cache)
    (cache : ScoreCache) (query : String) (keywords : List String)
    (useTag : Bool) (count? page? : Option Int) (k1 b threshold : ℚ)
    (hmiss : cacheGet cache (storeName, keywords, useTag, k1, b, threshold) = none) :
    searchOp tfun storeName docs bm25? cache query keywords useTag
        count? page? k1 b threshold =
      ({ query := query, keywords := keywords
         result := pageFetch docs
           (buildScore tfun bm25? docs keywords useTag k1 b threshold)
           (max (count?.getD 1) 1).toNat (max (page?.getD 0) 0).toNat
         totalPages := ((buildScore tfun bm25? docs keywords useTag k1 b threshold).length +
             (max (count?.getD 1) 1).toNat - 1) / (max (count?.getD 1) 1).toNat },
       cacheSet cache (storeName, keywords, useTag, k1, b, threshold)
         (buildScore tfun bm25? docs keywords useTag k1 b threshold)) := by
  unfold searchOp
  simp only [hmiss]

/-- C5: the score-cache key is built from collection, terms, space flag,
k1, b and threshold — not from page size or page index — so two search
calls differing only in the page index, with no mutation in between,
slice one identical ranked list: each returns the
`[pageIndex*pageSize, (pageIndex+1)*pageSize)` slice (after clamping
`pageSize ≥ 1`, `pageIndex ≥ 0`), distinct page indices address disjoint
index ranges, and both report the same
`totalPages = ceil(rankedCount / pageSize)`. -/
theorem search_pagination_shares_ranked_list
    (tfun : List String → String → List String) (storeName : String)
    (docs : Store) (bm25? : Option Bm25Cache) (cache : ScoreCache)
    (query : String) (keywords : List String) (useTag : Bool)
    (count? page1? page2? : Option Int) (k1 b threshold : ℚ)
    (c p1 p2 : Nat)
    (hc : c = (max (count?.getD 1) 1).toNat)
    (hp1 : p1 = (max (page1?.getD 0) 0).toNat)
    (hp2 : p2 = (max (page2?.getD 0) 0).toNat)
    (r1 r2 : SearchResult) (c1 c2 : ScoreCache)
    (h1 : searchOp tfun storeName docs bm25? cache query keywords useTag
        count? page1? k1 b threshold = (r1, c1))
    (h2 : searchOp tfun storeName docs bm25? c1 query keywords useTag
        count? page2? k1 b threshold = (r2, c2)) :
    1 ≤ c ∧
    ∃ L : ScoreList,
      cacheGet c1 (storeName, keywords, useTag, k1, b, threshold) = some L ∧
      r1.result = pageFetch docs L c p1 ∧
      r2.result = pageFetch docs L c p2 ∧
      r1.totalPages = (L.length + c - 1) / c ∧
      r2.totalPages = r1.totalPages ∧
      c2 = c1 ∧
      (p1 ≠ p2 →
        Disjoint (Finset.Ico (p1 * c) ((p1 + 1) * c))
          (Finset.Ico (p2 * c) ((p2 + 1) * c))) := by
  have hcge : 1 ≤ c := by
    rw [hc]
    have h1le : (1 : ℤ) ≤ max (count?.getD 1) 1 := le_max_right _ _
    exact Int.toNat_le_toNat h1le
  refine ⟨hcge, ?_⟩
  have hdisj : p1 ≠ p2 →
      Disjoint (Finset.Ico (p1 * c) ((p1 + 1) * c))
        (Finset.Ico (p2 * c) ((p2 + 1) * c)) := by
    intro hne
    rw [Finset.disjoint_left]
    intro a ha1 ha2
    rw [Finset.mem_Ico] at ha1 ha2
    rcases Nat.lt_or_ge p1 p2 with hlt | hge
    · have hmul : (p1 + 1) * c ≤ p2 * c := Nat.mul_le_mul_right c hlt
      omega
    · have hlt2 : p2 < p1 := lt_of_le_of_ne hge (Ne.symm hne)
      have hmul : (p2 + 1) * c ≤ p1 * c := Nat.mul_le_mul_right c hlt2
      omega
  cases hcg : cacheGet cache (storeName, keywords, useTag, k1, b, threshold) with
  | some L0 =>
    rw [searchOp_hit tfun storeName docs bm25? cache query keywords useTag
      count? page1? k1 b threshold L0 hcg, ← hc, ← hp1] at h1
    injection h1 with hr1 hc1
    have hhit2 : cacheGet c1 (storeName, keywords, useTag, k1, b, threshold) =
        some L0 := by
      rw [← hc1]
      exact hcg
    rw [searchOp_hit tfun storeName docs bm25? c1 query keywords useTag
      count? page2? k1 b threshold L0 hhit2, ← hc, ← hp2] at h2
    injection h2 with hr2 hc2
    refine ⟨L0, hhit2, ?_, ?_, ?_, ?_, hc2.symm, hdisj⟩
    · rw [← hr1]
    · rw [← hr2]
    · rw [← hr1]
    · rw [← hr2, ← hr1]
  | none =>
    rw [searchOp_miss tfun storeName docs bm25? cache query keywords useTag
      count? page1? k1 b threshold hcg, ← hc, ← hp1] at h1
    injection h1 with hr1 hc1
    have hhit2 : cacheGet c1 (storeName, keywords, useTag, k1, b, threshold) =
        some (buildScore tfun bm25? docs keywords useTag k1 b threshold) := by
      rw [← hc1]
      exact cacheGet_cacheSet_self cache _ _
    rw [searchOp_hit tfun storeName docs bm25? c1 query keywords useTag
      count? page2? k1 b threshold _ hhit2, ← hc, ← hp2] at h2
    injection h2 with hr2 hc2
    refine ⟨buildScore tfun bm25? docs keywords useTag k1 b threshold,
      hhit2, ?_, ?_, ?_, ?_, hc2.symm, hdisj⟩
    · rw [← hr1]
    · rw [← hr2]
    · rw [← hr1]
    · rw [← hr2, ← hr1]

/-- C5 witness: two concrete consecutive searches at pages 0 and 1. -/
theorem search_pagination_shares_ranked_list_witness :
    1 ≤ 2 ∧
    ∃ L : ScoreList,
      cacheGet (searchOp (fun _ _ => []) "questions" [] none [] "q" ["q"] true
          (some 2) (some 0) 1.5 0.75 1e-10).2
        ("questions", ["q"], true, 1.5, 0.75, 1e-10) = some L ∧
      (searchOp (fun _ _ => []) "questions" [] none [] "q" ["q"] true
          (some 2) (some 0) 1.5 0.75 1e-10).1.result = pageFetch [] L 2 0 ∧
      (searchOp (fun _ _ => []) "questions" [] none
          (searchOp (fun _ _ => []) "questions" [] none [] "q" ["q"] true
            (some 2) (some 0) 1.5 0.75 1e-10).2
          "q" ["q"] true (some 2) (some 1) 1.5 0.75 1e-10).1.result =
        pageFetch [] L 2 1 ∧
      (searchOp (fun _ _ => []) "questions" [] none [] "q" ["q"] true
          (some 2) (some 0) 1.5 0.75 1e-10).1.totalPages = (L.length + 2 - 1) / 2 ∧
      (searchOp (fun _ _ => []) "questions" [] none
          (searchOp (fun _ _ => []) "questions" [] none [] "q" ["q"] true
            (some 2) (some 0) 1.5 0.75 1e-10).2
          "q" ["q"] true (some 2) (some 1) 1.5 0.75 1e-10).1.totalPages =
        (searchOp (fun _ _ => []) "questions" [] none [] "q" ["q"] true
          (some 2) (some 0) 1.5 0.75 1e-10).1.totalPages ∧
      (searchOp (fun _ _ => []) "questions" [] none
          (searchOp (fun _ _ => []) "questions" [] none [] "q" ["q"] true
            (some 2) (some 0) 1.5 0.75 1e-10).2
          "q" ["q"] true (some 2) (some 1) 1.5 0.75 1e-10).2 =
        (searchOp (fun _ _ => []) "questions" [] none [] "q" ["q"] true
          (some 2) (some 0) 1.5 0.75 1e-10).2 ∧
      ((0 : Nat) ≠ 1 →
        Disjoint (Finset.Ico (0 * 2) ((0 + 1) * 2))
          (Finset.Ico (1 * 2) ((1 + 1) * 2))) :=
  search_pagination_shares_ranked_list (fun _ _ => []) "questions" [] none []
    "q" ["q"] true (some 2) (some 0) (some 1) 1.5 0.75 1e-10 2 0 1
    (by decide) (by decide) (by decide)
    (searchOp (fun _ _ => []) "questions" [] none [] "q" ["q"] true
      (some 2) (some 0) 1.5 0.75 1e-10).1
    (searchOp (fun _ _ => []) "questions" [] none
      (searchOp (fun _ _ => []) "questions" [] none [] "q" ["q"] true
        (some 2) (some 0) 1.5 0.75 1e-10).2
      "q" ["q"] true (some 2) (some 1) 1.5 0.75 1e-10).1
    (searchOp (fun _ _ => []) "questions" [] none [] "q" ["q"] true
      (some 2) (some 0) 1.5 0.75 1e-10).2
    (searchOp (fun _ _ => []) "questions" [] none
      (searchOp (fun _ _ => []) "questions" [] none [] "q" ["q"] true
        (some 2) (some 0) 1.5 0.75 1e-10).2
      "q" ["q"] true (some 2) (some 1) 1.5 0.75 1e-10).2
    rfl rfl

/-! ### Helper lemmas for the indexer scan -/

/-- The per-document effect of one `_buildIndices` scan step on the
stored collection. -/
def updOne (gk : Doc → List String × RecordMap Nat) (force : Bool)
    (now : Nat) (d : Doc) : Doc :=
  if needsReindex force d then reindexDoc gk now d else d

theorem reindexDoc_id (gk : Doc → List String × RecordMap Nat) (now : Nat)
    (d : Doc) : (reindexDoc gk now d).id = d.id := rfl

theorem scanStep_eq_true (gk : Doc → List String × RecordMap Nat)
    (force : Bool) (now : Nat) (a : ScanAcc) (d : Doc)
    (h : needsReindex force d = true) :
    scanStep gk force now a d =
      { accStep a (reindexDoc gk now d) with updated := a.updated ++ [d.id] } := by
  unfold scanStep
  rw [if_pos h]
  rfl

theorem scanStep_eq_false (gk : Doc → List String × RecordMap Nat)
    (force : Bool) (now : Nat) (a : ScanAcc) (d : Doc)
    (h : needsReindex force d = false) :
    scanStep gk force now a d = accStep a d := by
  unfold scanStep
  rw [if_neg (by simp [h])]

theorem accStep_override (a : ScanAcc) (u : List String) (d : Doc) :
    accStep { a with updated := u } d = { accStep a d with updated := u } := rfl

theorem foldl_accStep_override (l : List Doc) (a : ScanAcc) (u : List String) :
    l.foldl accStep { a with updated := u } = { l.foldl accStep a with updated := u } := by
  induction l generalizing a with
  | nil => rfl
  | cons d ds ih =>
    rw [List.foldl_cons, List.foldl_cons, accStep_override]
    exact ih (accStep a d)

/-- The `_buildIndices` cursor scan factors into: map every document
through its (possible) re-index, accumulate the statistics over the
resulting documents, and record the ids of the re-indexed ones. -/
theorem scan_factor (gk : Doc → List String × RecordMap Nat) (force : Bool)
    (now : Nat) (docs : Store) (a : ScanAcc) :
    docs.foldl (scanStep gk force now) a =
      { (docs.map (updOne gk force now)).foldl accStep a with
        updated := a.updated ++
          ((docs.filter (fun d => needsReindex force d)).map Doc.id) } := by
  induction docs generalizing a with
  | nil => simp
  | cons d ds ih =>
    rw [List.foldl_cons, List.map_cons, List.foldl_cons, ih]
    cases hnr : needsReindex force d with
    | true =>
      have h2 : updOne gk force now d = reindexDoc gk now d := by
        unfold updOne
        rw [if_pos hnr]
      rw [scanStep_eq_true gk force now a d hnr, h2,
        List.filter_cons_of_pos (by simp [hnr]), List.map_cons,
        foldl_accStep_override]
      dsimp only
      simp [List.append_assoc]
    | false =>
      have h2 : updOne gk force now d = d := by
        unfold updOne
        rw [if_neg (by simp [hnr])]
      rw [scanStep_eq_false gk force now a d hnr, h2,
        List.filter_cons_of_neg (by simp [hnr])]
      rfl

/-- A freshly re-indexed document is not stale for a `force = false`
pass, provided its `lastUpdate` does not lie in the future of the
indexing time. -/
theorem reindexed_not_stale (gk : Doc → List String × RecordMap Nat)
    (now : Nat) (d : Doc)
    (h : ∀ lu, d.lastUpdate = some lu → lu ≤ now) :
    needsReindex false (reindexDoc gk now d) = false := by
  unfold needsReindex reindexDoc
  cases hlu : d.lastUpdate with
  | none => simp [hlu]
  | some lu =>
    have hle := h lu hlu
    simp [hlu, Nat.not_lt.mpr hle]

theorem needsReindex_of_not_force (force : Bool) (d : Doc)
    (h : needsReindex force d = false) : needsReindex false d = false := by
  cases force
  · exact h
  · unfold needsReindex at h
    simp at h

/-- After any `_buildIndices` pass whose time bound dominates every
`lastUpdate`, no output document needs re-indexing at `force = false`. -/
theorem updOne_not_stale (gk : Doc → List String × RecordMap Nat)
    (force : Bool) (now : Nat) (d : Doc)
    (h : ∀ lu, d.lastUpdate = some lu → lu ≤ now) :
    needsReindex false (updOne gk force now d) = false := by
  unfold updOne
  by_cases hnr : needsReindex force d = true
  · rw [if_pos hnr]
    exact reindexed_not_stale gk now d h
  · rw [if_neg hnr]
    exact needsReindex_of_not_force force d (by simpa using hnr)

theorem foldl_accStep_docs (l : List Doc) (a : ScanAcc) :
    (l.foldl accStep a).docs = a.docs ++ l := by
  induction l generalizing a with
  | nil => simp
  | cons d ds ih =>
    rw [List.foldl_cons, ih]
    simp [accStep]

theorem foldl_accStep_updated (l : List Doc) (a : ScanAcc) :
    (l.foldl accStep a).updated = a.updated := by
  induction l generalizing a with
  | nil => rfl
  | cons d ds ih =>
    rw [List.foldl_cons, ih]
    rfl

/-- A second scan over documents none of which needs re-indexing is the
pure statistics accumulation. -/
theorem scanDocs_no_reindex (gk : Doc → List String × RecordMap Nat)
    (now : Nat) (docs : Store)
    (h : ∀ d ∈ docs, needsReindex false d = false) :
    scanDocs gk false now docs = docs.foldl accStep ScanAcc.init := by
  unfold scanDocs
  rw [scan_factor]
  have hmap : docs.map (updOne gk false now) = docs := by
    have hid : ∀ d ∈ docs, updOne gk false now d = id d := by
      intro d hd
      unfold updOne
      rw [if_neg (by simp [h d hd])]
      rfl
    rw [List.map_congr_left hid, List.map_id]
  have hfil : docs.filter (fun d => needsReindex false d) = [] := by
    rw [List.filter_eq_nil_iff]
    intro d hd
    simp [h d hd]
  have hupd : (docs.foldl accStep ScanAcc.init).updated = ScanAcc.init.updated :=
    foldl_accStep_updated docs ScanAcc.init
  rw [hmap, hfil, ← hupd]
  simp only [List.map_nil, List.append_nil]

/-- One `_buildIndices` pass followed by a `force = false` pass over the
unchanged result: the second pass re-indexes nothing, keeps every stored
document, and reproduces the same BM25 cache. -/
theorem buildIndices_idempotent (gk : Doc → List String × RecordMap Nat)
    (force : Bool) (now1 now2 : Nat) (docs0 : Store)
    (h : ∀ d ∈ docs0, ∀ lu, d.lastUpdate = some lu → lu ≤ now1) :
    buildIndicesOp gk false now2 (buildIndicesOp gk force now1 docs0).2.1 =
      ([], (buildIndicesOp gk force now1 docs0).2.1,
        (buildIndicesOp gk force now1 docs0).2.2) := by
  have hdocs1 : (buildIndicesOp gk force now1 docs0).2.1 =
      docs0.map (updOne gk force now1) := by
    show (scanDocs gk force now1 docs0).docs = _
    unfold scanDocs
    rw [scan_factor]
    dsimp only
    rw [foldl_accStep_docs]
    simp [ScanAcc.init]
  have hstale : ∀ d1 ∈ docs0.map (updOne gk force now1),
      needsReindex false d1 = false := by
    intro d1 hd1
    rcases List.mem_map.mp hd1 with ⟨d0, hd0, rfl⟩
    exact updOne_not_stale gk force now1 d0 (h d0 hd0)
  have hbm : (buildIndicesOp gk force now1 docs0).2.2 =
      mkBm25 ((docs0.map (updOne gk force now1)).foldl accStep ScanAcc.init) := by
    show mkBm25 (scanDocs gk force now1 docs0) = _
    unfold scanDocs
    rw [scan_factor]
    rfl
  rw [hdocs1, hbm]
  unfold buildIndicesOp
  dsimp only
  rw [scanDocs_no_reindex gk now2 _ hstale]
  rw [foldl_accStep_updated, foldl_accStep_docs]
  simp [ScanAcc.init]

/-- The exact re-index condition of `_buildIndices`, spelled out. -/
theorem needsReindex_characterization (f : Bool) (d : Doc) :
    needsReindex f d = true ↔
      f = true ∨ (d.deleted ≠ some true ∧
        (d.keywords = none ∨ d.keywordsUpdatedTime = none ∨
          ∃ lu kut, d.lastUpdate = some lu ∧ d.keywordsUpdatedTime = some kut ∧
            kut < lu)) := by
  unfold needsReindex
  cases f with
  | true => simp
  | false =>
    cases hdel : d.deleted with
    | none =>
      cases hkut : d.keywordsUpdatedTime with
      | none => simp [hdel, hkut, Option.isNone_iff_eq_none]
      | some kut =>
        cases hlu : d.lastUpdate with
        | none => simp [hdel, hkut, hlu, Option.isNone_iff_eq_none]
        | some lu => simp [hdel, hkut, hlu, Option.isNone_iff_eq_none]
    | some b =>
      cases b with
      | false =>
        cases hkut : d.keywordsUpdatedTime with
        | none => simp [hdel, hkut, Option.isNone_iff_eq_none]
        | some kut =>
          cases hlu : d.lastUpdate with
          | none => simp [hdel, hkut, hlu, Option.isNone_iff_eq_none]
          | some lu => simp [hdel, hkut, hlu, Option.isNone_iff_eq_none]
      | true => simp [hdel]

/-- C6: `refreshSearchIndices` re-indexes a document exactly when
`force` is set, or the document is not soft-deleted and its derived
keyword fields are missing or stale (`keywords` or
`keywordsUpdatedTime` absent, or `keywordsUpdatedTime < lastUpdate`);
and for unchanged data an immediately repeated call with `force = false`
re-indexes zero documents and leaves the whole state — every stored
document, both persisted BM25 caches, and the (cleared) score cache —
equal to its value after the first call. The time hypothesis says no
stored `lastUpdate` lies in the future of the first pass. -/
theorem refresh_reindex_condition_and_idempotent
    (genKwQ genKwP : Doc → List String × RecordMap Nat) (force : Bool)
    (now1 now2 : Nat) (db0 : DB)
    (hq : ∀ d ∈ db0.questions, ∀ lu, d.lastUpdate = some lu → lu ≤ now1)
    (hp : ∀ d ∈ db0.papers, ∀ lu, d.lastUpdate = some lu → lu ≤ now1) :
    (∀ (f : Bool) (d : Doc),
      needsReindex f d = true ↔
        f = true ∨ (d.deleted ≠ some true ∧
          (d.keywords = none ∨ d.keywordsUpdatedTime = none ∨
            ∃ lu kut, d.lastUpdate = some lu ∧ d.keywordsUpdatedTime = some kut ∧
              kut < lu))) ∧
    (refreshSearchIndicesOp genKwQ genKwP false now2
        (refreshSearchIndicesOp genKwQ genKwP force now1 db0).2).1 = 0 ∧
    (refreshSearchIndicesOp genKwQ genKwP false now2
        (refreshSearchIndicesOp genKwQ genKwP force now1 db0).2).2 =
      (refreshSearchIndicesOp genKwQ genKwP force now1 db0).2 := by
  have hQ := buildIndices_idempotent genKwQ force now1 now2 db0.questions hq
  have hP := buildIndices_idempotent genKwP force now1 now2 db0.papers hp
  refine ⟨needsReindex_characterization, ?_, ?_⟩
  · unfold refreshSearchIndicesOp
    dsimp only
    rw [hQ, hP]
    rfl
  · unfold refreshSearchIndicesOp
    dsimp only
    rw [hQ, hP]

/-- Concrete fixtures for the idempotence witness. -/
def c6doc : Doc := { id := "a", lastUpdate := some 2, tags := some ["math"] }

def c6db : DB :=
  { questions := [c6doc], papers := [], bm25Q := none, bm25P := none, cache := [] }

def c6gk : Doc → List String × RecordMap Nat := fun _ => (["w"], [("w", 1)])

/-- C6 witness: a forced rebuild at time 5 followed by a `force = false`
call at time 9 on the unchanged one-document state. -/
theorem refresh_reindex_condition_and_idempotent_witness :
    (needsReindex false c6doc = true ↔
      false = true ∨ (c6doc.deleted ≠ some true ∧
        (c6doc.keywords = none ∨ c6doc.keywordsUpdatedTime = none ∨
          ∃ lu kut, c6doc.lastUpdate = some lu ∧ c6doc.keywordsUpdatedTime = some kut ∧
            kut < lu))) ∧
    (refreshSearchIndicesOp c6gk c6gk false 9
        (refreshSearchIndicesOp c6gk c6gk true 5 c6db).2).1 = 0 ∧
    (refreshSearchIndicesOp c6gk c6gk false 9
        (refreshSearchIndicesOp c6gk c6gk true 5 c6db).2).2 =
      (refreshSearchIndicesOp c6gk c6gk true 5 c6db).2 := by
  have h := refresh_reindex_condition_and_idempotent c6gk c6gk true 5 9 c6db
    (by
      intro d hd lu hlu
      rw [show c6db.questions = [c6doc] from rfl, List.mem_singleton] at hd
      subst hd
      rw [show c6doc.lastUpdate = some 2 from rfl] at hlu
      injection hlu with h2
      omega)
    (by
      intro d hd lu hlu
      simp [c6db] at hd)
  exact ⟨h.1 false c6doc, h.2.1, h.2.2⟩

/-! ### C2 fixtures: a collection whose only document is soft-deleted -/

def c2gk : Doc → List String × RecordMap Nat := fun _ => (["w"], [("w", 1)])

def c2doc : Doc := { id := "a", deleted := some true, tags := some ["math"] }

def c2db : DB :=
  { questions := [c2doc], papers := [], bm25Q := none, bm25P := none, cache := [] }

/-- The soft-deleted document as re-indexed by the forced pass at t = 7. -/
def c2d1 : Doc :=
  { id := "a", deleted := some true, tags := some ["math"],
    keywords := some ["w"], keywordsFrequency := some [("w", 1)],
    tagsFrequency := some [("math", 1)], keywordsUpdatedTime := some 7 }

/-- The BM25 cache the forced pass persists for the questions store. -/
noncomputable def c2B : Bm25Cache :=
  { wordAppeared := [("w", 1)], tagAppeared := [("math", 1)]
    averageDocLength := 1, averageDocLengthTag := 1, totalDocs := 1
    idf := [("w", idfOf 1 1)], idfTag := [("math", idfOf 1 1)]
    trie := ["w"], trieTags := ["math"] }

theorem c2_bm25 :
    (refreshSearchIndicesOp c2gk c2gk true 7 c2db).2.bm25Q = some c2B := by
  show some (mkBm25 (scanDocs c2gk true 7 [c2doc])) = some c2B
  rw [show scanDocs c2gk true 7 [c2doc] =
    (⟨[c2d1], ["a"], [("w", 1)], [("math", 1)], 1, 1, 1⟩ : ScanAcc) from rfl]
  norm_num [mkBm25, c2B, buildIdf, keysR]

theorem c2_docScore :
    docScore c2B.idfTag c2B.averageDocLengthTag ((1.5 : ℚ) : ℝ) ((0.75 : ℚ) : ℝ)
      ["math"] true c2d1 = idfOf 1 1 := by
  unfold docScore c2B c2d1
  norm_num [getR, List.find?]

theorem c2_ranked_list :
    buildScore (fun _ _ => []) (some c2B) [c2d1] ["math"] true 1.5 0.75 1e-10 =
      [("a", idfOf 1 1)] := by
  have hpos : ((1e-10 : ℚ) : ℝ) <
      docScore c2B.idfTag c2B.averageDocLengthTag ((1.5 : ℚ) : ℝ) ((0.75 : ℚ) : ℝ)
        ["math"] true c2d1 := by
    rw [c2_docScore]
    calc ((1e-10 : ℚ) : ℝ) < 1e-8 := by norm_num
      _ ≤ idfOf 1 1 := le_max_left _ _
  unfold buildScore
  dsimp only
  rw [show expandQuery (fun _ => ([] : List String)) ["math"] = ["math"] from rfl]
  simp only [Option.getD_some, eq_self_iff_true, if_true]
  rw [List.foldl_cons, List.foldl_nil, if_pos hpos, c2_docScore]
  rfl

theorem c2_search_result :
    ((findQuestionByTagsOp (fun _ _ => []) (refreshSearchIndicesOp c2gk c2gk true 7 c2db).2
        "math" (some 1) (some 0)).1.result).map Doc.id = ["a"] := by
  have hcall : ∀ db : DB,
      findQuestionByTagsOp (fun _ _ => []) db "math" (some 1) (some 0) =
        searchOp (fun _ _ => []) "questions" db.questions db.bm25Q db.cache
          "math" ["math"] true (some 1) (some 0) 1.5 0.75 1e-10 :=
    fun _ => rfl
  rw [hcall]
  rw [show (refreshSearchIndicesOp c2gk c2gk true 7 c2db).2.questions = [c2d1] from rfl,
    show (refreshSearchIndicesOp c2gk c2gk true 7 c2db).2.cache = ([] : ScoreCache) from rfl,
    c2_bm25]
  rw [searchOp_miss (fun _ _ => []) "questions" [c2d1] (some c2B) [] "math" ["math"] true
    (some 1) (some 0) 1.5 0.75 1e-10 rfl]
  dsimp only
  rw [c2_ranked_list]
  rw [show ((max ((some (1 : Int)).getD 1) 1).toNat) = 1 from rfl,
    show ((max ((some (0 : Int)).getD 0) 0).toNat) = 0 from rfl]
  unfold pageFetch
  simp [List.range_succ, List.filterMap_cons, getDoc, List.find?, c2d1,
    sanitizeIndices]

/-- C2 (code bug evidence): with the store holding a single soft-deleted
document tagged "math", a forced `refreshSearchIndices` counts that
document in `tagAppeared`, in `wordAppeared` and in the total document
count, and a subsequent tag search for "math" returns it — the scan
accumulates statistics and the scorer visits documents with no check of
the `deleted` flag. -/
theorem softDeleted_counted_and_searchable :
    (refreshSearchIndicesOp c2gk c2gk true 7 c2db).2.bm25Q.map Bm25Cache.tagAppeared =
      some [("math", 1)] ∧
    (refreshSearchIndicesOp c2gk c2gk true 7 c2db).2.bm25Q.map Bm25Cache.wordAppeared =
      some [("w", 1)] ∧
    (refreshSearchIndicesOp c2gk c2gk true 7 c2db).2.bm25Q.map Bm25Cache.totalDocs =
      some 1 ∧
    ((findQuestionByTagsOp (fun _ _ => []) (refreshSearchIndicesOp c2gk c2gk true 7 c2db).2
        "math" (some 1) (some 0)).1.result).map Doc.id = ["a"] :=
  ⟨rfl, rfl, rfl, c2_search_result⟩
